import Mathlib

/-!
Shallow embedding of the commit-preparation, retry and query logic of
github2gerrit (files `gitutils.py` and `core.py`), together with theorems
settling the claims about its specification.

Python strings are modelled as `List Char` (`Str`); Python `float` delays
are modelled as `ℚ`; subprocess and REST outcomes are threaded in
explicitly as functions supplied by the environment.  Definitions come
first, then the supporting lemmas, then the claim theorems.
-/

namespace G2G

/-- Python strings, modelled as lists of characters. -/
abbrev Str := List Char

/-- Characters removed by Python `str.strip()` (ASCII whitespace). -/
def pyIsSpace (c : Char) : Bool :=
  c = ' ' || c = '\t' || c = '\n' || c = '\r' || c = '\x0b' || c = '\x0c'

/-- Python `str.strip()`: drop leading and trailing whitespace. -/
def pyStrip (s : Str) : Str :=
  (s.dropWhile pyIsSpace).rdropWhile pyIsSpace

/-- Python `str.lower()` restricted to the ASCII range used by the code. -/
def pyLower (s : Str) : Str := s.map Char.toLower

/-- Python `"\n".join(lines)`. -/
def joinNL (ls : List Str) : Str := List.intercalate "\n".toList ls

/-- Python `s.removesuffix(suf)`: drop `suf` when it is a nonempty suffix. -/
def pyRemoveSuffix (suf s : Str) : Str :=
  if suf ≠ [] ∧ suf <:+ s then s.take (s.length - suf.length) else s

-- ---------------------------------------------------------------------
-- gitutils.py: mask_text
-- ---------------------------------------------------------------------

/-- The fixed mask `"***"` that replaces each secret token. -/
def star3 : Str := ['*', '*', '*']

/-- Python `s.replace(t, r)`: replace each non-overlapping occurrence of
`t` in `s` by `r`, scanning left to right.  (The call site skips empty
tokens, so the guard keeps `t` nonempty.) -/
def replaceAll (t r : Str) : Str → Str
  | [] => []
  | c :: rest =>
    if t ≠ [] ∧ t.isPrefixOf (c :: rest) then
      r ++ replaceAll t r ((c :: rest).drop t.length)
    else
      c :: replaceAll t r rest
termination_by s => s.length
decreasing_by
  · rename_i h
    simp only [List.length_drop, List.length_cons]
    have ht : 0 < t.length := List.length_pos.mpr h.1
    omega
  · simp only [List.length_cons]; omega

/-- `mask_text(text, masks)` from gitutils.py: replace each mask value in
the text with asterisks, skipping empty tokens. -/
def mask_text (text : Str) (masks : List Str) : Str :=
  masks.foldl (fun acc token => if token = [] then acc else replaceAll token star3 acc) text

-- ---------------------------------------------------------------------
-- gitutils.py: transient-error detection, backoff, retry loop
-- ---------------------------------------------------------------------

/-- The fixed substring patterns of `_is_transient_git_error`. -/
def transientPatterns : List Str :=
  ["unable to access".toList,
   "could not resolve host".toList,
   "failed to connect".toList,
   "connection timed out".toList,
   "connection reset by peer".toList,
   "early eof".toList,
   "the remote end hung up unexpectedly".toList,
   "http/2 stream".toList,
   "transport endpoint is not connected".toList,
   "network is unreachable".toList,
   "temporary failure".toList,
   "ssl: couldn\x27t".toList,
   "ssl: certificate".toList]

/-- `_is_transient_git_error(stderr)`: lowercase the text and look for any
of the fixed network-failure substrings. -/
def is_transient_git_error (stderr : Str) : Bool :=
  transientPatterns.any (fun pat => decide (pat <:+: pyLower stderr))

/-- Result record of `run_cmd` (returncode, stdout, stderr). -/
structure CommandResult where
  returncode : Int
  stdout : Str
  stderr : Str
deriving DecidableEq

/-- The payload of a raised `CommandError`. -/
structure CommandError where
  message : Str
  returncode : Option Int
  stdout : Option Str
  stderr : Option Str
deriving DecidableEq

/-- The default retry predicate of `run_cmd_with_retries`. -/
def defaultRetryOn (res : CommandResult) : Bool :=
  decide (res.returncode ≠ 0) && is_transient_git_error res.stderr

/-- Default `base` argument of `_backoff_delay` (0.5 seconds). -/
def backoffBase : ℚ := 1 / 2

/-- Default `cap` argument of `_backoff_delay` (5.0 seconds). -/
def backoffCap : ℚ := 5

/-- `_backoff_delay(attempt)`: exponential backoff `base * 2^(attempt-1)`,
capped.  The code computes `2 ** max(0, attempt - 1)`. -/
def backoff_delay (attempt : ℕ) : ℚ :=
  min (backoffBase * 2 ^ (max 0 (attempt - 1))) backoffCap

/-- Observable outcome of one `run_cmd_with_retries` call: the returned or
raised value, the index of the last attempt executed (= number of
invocations of `run_cmd`, attempts count from 1), and the delays slept. -/
structure RetryRun where
  outcome : Except CommandError CommandResult
  invocations : ℕ
  sleeps : List ℚ

/-- The `CommandError` raised when the retry budget is exhausted. -/
def afterRetriesError (res : CommandResult) : CommandError :=
  ⟨"Command failed after retries".toList, some res.returncode, some res.stdout, some res.stderr⟩

/-- The `CommandError` raised on a non-retryable failure. -/
def nonRetryableError (res : CommandResult) : CommandError :=
  ⟨"Command failed (non-retryable)".toList, some res.returncode, some res.stdout, some res.stderr⟩

/-- The `while True` loop of `run_cmd_with_retries`, starting at a given
attempt number.  `attempts n` is the outcome of the `run_cmd` invocation
at attempt `n` (`check=False` there, so a `CommandResult` is returned for
ordinary failures and an exception only for timeout/exec errors, which
the loop re-raises immediately). -/
def runCmdWithRetriesGo (retries : ℕ) (check : Bool) (pred : CommandResult → Bool)
    (attempts : ℕ → Except CommandError CommandResult) (attempt : ℕ) : RetryRun :=
  match attempts attempt with
  | .error e => ⟨.error e, attempt, []⟩
  | .ok res =>
    if res.returncode = 0 ∨ attempt > retries + 1 then
      if check = true ∧ res.returncode ≠ 0 then
        ⟨.error (afterRetriesError res), attempt, []⟩
      else
        ⟨.ok res, attempt, []⟩
    else if pred res = true then
      let rest := runCmdWithRetriesGo retries check pred attempts (attempt + 1)
      ⟨rest.outcome, rest.invocations, backoff_delay attempt :: rest.sleeps⟩
    else if check = true then
      ⟨.error (nonRetryableError res), attempt, []⟩
    else
      ⟨.ok res, attempt, []⟩
termination_by retries + 2 - attempt
decreasing_by omega

/-- `run_cmd_with_retries`: run the loop from attempt 1. -/
def run_cmd_with_retries (retries : ℕ) (check : Bool) (pred : CommandResult → Bool)
    (attempts : ℕ → Except CommandError CommandResult) : RetryRun :=
  runCmdWithRetriesGo retries check pred attempts 1

/-- The `git(...)` wrapper: `run_cmd_with_retries` with the default
transient-error predicate. -/
def gitRun (retries : ℕ) (check : Bool)
    (attempts : ℕ → Except CommandError CommandResult) : RetryRun :=
  run_cmd_with_retries retries check defaultRetryOn attempts

-- ---------------------------------------------------------------------
-- gitutils.py: _parse_trailers
-- ---------------------------------------------------------------------

/-- One iteration of the `_parse_trailers` loop on a raw line: strip it,
skip empty or colon-free lines, split at the first colon, strip both
parts, and skip empty keys or values. -/
def lineParse (raw : Str) : Option (Str × Str) :=
  let line := pyStrip raw
  if line = [] ∨ ¬ ':' ∈ line then none
  else
    let key := line.takeWhile (fun c => decide (c ≠ ':'))
    let val := line.drop (key.length + 1)
    let k := pyStrip key
    let v := pyStrip val
    if k = [] ∨ v = [] then none else some (k, v)

/-- `trailers.setdefault(k, []).append(v)` on an insertion-ordered map. -/
def addTrailer : List (Str × List Str) → Str → Str → List (Str × List Str)
  | [], k, v => [(k, [v])]
  | (k', vs) :: rest, k, v =>
    if k' = k then (k', vs ++ [v]) :: rest else (k', vs) :: addTrailer rest k v

/-- The `_parse_trailers` loop over a list of lines. -/
def parseLines (lines : List Str) : List (Str × List Str) :=
  lines.foldl
    (fun m raw =>
      match lineParse raw with
      | none => m
      | some kv => addTrailer m kv.1 kv.2)
    []

/-- `_parse_trailers(text)`: the loop over `text.splitlines()` (modelled
as splitting on the newline character). -/
def parse_trailers (text : Str) : List (Str × List Str) :=
  parseLines (text.splitOn '\n')

/-- Look up the value list of a key in the insertion-ordered trailer map. -/
def lookupVals (k : Str) : List (Str × List Str) → List Str
  | [] => []
  | (k', vs) :: rest => if k' = k then vs else lookupVals k rest

-- ---------------------------------------------------------------------
-- core.py: data models
-- ---------------------------------------------------------------------

/-- `GerritInfo` dataclass: host, port, project. -/
structure GerritInfo where
  host : Str
  port : ℕ
  project : Str
deriving DecidableEq

/-- `RepoNames` dataclass. -/
structure RepoNames where
  project_gerrit : Str
  project_github : Str
deriving DecidableEq

/-- `PreparedChange` dataclass. -/
structure PreparedChange where
  change_ids : List Str
  commit_shas : List Str
deriving DecidableEq

/-- `SubmissionResult` dataclass. -/
structure SubmissionResult where
  change_urls : List Str
  change_numbers : List Str
  commit_shas : List Str
deriving DecidableEq

-- ---------------------------------------------------------------------
-- core.py: _read_gitreview (local-file branch)
-- ---------------------------------------------------------------------

/-- Match one line against the pattern `^<key>(.+)$` where `key` ends in
`=`; the captured group is everything after the key (nonempty). -/
def keyMatch (key : Str) (line : Str) : Option Str :=
  if key <+: line ∧ line.drop key.length ≠ [] then some (line.drop key.length) else none

/-- Match one line against `^port=(\d+)$` (ASCII digits). -/
def portMatch (line : Str) : Option Str :=
  match keyMatch "port=".toList line with
  | some rest => if rest.all Char.isDigit then some rest else none
  | none => none

/-- Decimal value of a digit string. -/
def natOfDigits (ds : Str) : ℕ :=
  ds.foldl (fun n c => n * 10 + (c.toNat - '0'.toNat)) 0

/-- The local-file branch of `_read_gitreview`, as a function of the
file's lines: regex-search for `host=`, `port=`, `project=` lines, strip
a trailing `.git` from the project, default the port to 29418, and raise
on a file missing host or project. -/
def read_gitreview_text (lines : List Str) : Except Str GerritInfo :=
  match lines.findSome? (keyMatch "host=".toList), lines.findSome? (keyMatch "project=".toList) with
  | some host, some proj =>
    let project := pyRemoveSuffix ".git".toList proj
    let port := match lines.findSome? portMatch with
      | some ds => natOfDigits ds
      | none => 29418
    .ok ⟨pyStrip host, port, pyStrip project⟩
  | _, _ => .error "invalid .gitreview".toList

-- ---------------------------------------------------------------------
-- core.py: _prepare_single_commits (Change-Id accumulation)
-- ---------------------------------------------------------------------

/-- The per-commit accumulation loop of `_prepare_single_commits`:
`cidOf c` is the `Change-Id` trailer list read back from the amended
cherry-pick of commit `c`; falsy (empty) values are skipped. -/
def accumulatedChangeIds (commits : List Str) (cidOf : Str → List Str) : List Str :=
  commits.foldl (fun acc c => acc ++ (cidOf c).filter (fun cid => decide (cid ≠ []))) []

/-- The dedup loop of `_prepare_single_commits`; the `seen` set is
modelled by membership in the accumulated unique list (the two always
hold the same elements). -/
def dedupFirstGo (acc : List Str) : List Str → List Str
  | [] => acc
  | cid :: rest =>
    if cid ∈ acc then dedupFirstGo acc rest else dedupFirstGo (acc ++ [cid]) rest

/-- `_prepare_single_commits`, as a function of the commit range and of
the per-commit Change-Id read-back: empty range short-circuits, otherwise
accumulate then deduplicate preserving order. -/
def prepare_single_commits (commits : List Str) (cidOf : Str → List Str) : PreparedChange :=
  if commits = [] then ⟨[], []⟩
  else ⟨dedupFirstGo [] (accumulatedChangeIds commits cidOf), []⟩

/-- Deduplication keeping the first occurrence of each element, written
the way the spec describes it. -/
def specDedup : List Str → List Str
  | [] => []
  | a :: l => a :: specDedup (l.filter (fun x => decide (x ≠ a)))
termination_by l => l.length
decreasing_by
  simp only [List.length_cons]
  exact Nat.lt_succ_of_le (List.length_filter_le _ _)

-- ---------------------------------------------------------------------
-- core.py: _prepare_squashed_commit (message synthesis)
-- ---------------------------------------------------------------------

/-- Loop state of the message filter in `_prepare_squashed_commit`. -/
structure SquashFilterState where
  inMeta : Bool
  cids : List Str
  signoffs : List Str
  msgLines : List Str
deriving DecidableEq

/-- One iteration of the filter loop: metadata-section tracking, then
`Change-Id:` extraction, then `Signed-off-by:` collection, then body
accumulation. -/
def squashFilterStep (st : SquashFilterState) (ln : Str) : SquashFilterState :=
  if pyStrip ln = "---".toList ∨ pyStrip ln = "```".toList ∨
      "updated-dependencies:".toList <+: ln then
    { st with inMeta := true }
  else if st.inMeta = true ∧
      ("- dependency-".toList <+: ln ∨ "  dependency-".toList <+: ln) then
    st
  else
    let inMeta1 :=
      if st.inMeta = true ∧
          ¬ ("  ".toList <+: ln ∨ "-".toList <+: ln ∨ "dependency-".toList <+: ln) ∧
          pyStrip ln ≠ [] then
        false
      else st.inMeta
    if "Change-Id:".toList <+: ln then
      let cid := pyStrip (ln.drop "Change-Id:".toList.length)
      { inMeta := inMeta1,
        cids := if cid ≠ [] then st.cids ++ [cid] else st.cids,
        signoffs := st.signoffs, msgLines := st.msgLines }
    else if "Signed-off-by:".toList <+: ln then
      { inMeta := inMeta1, cids := st.cids,
        signoffs := st.signoffs ++ [ln], msgLines := st.msgLines }
    else if inMeta1 = false then
      { inMeta := inMeta1, cids := st.cids,
        signoffs := st.signoffs, msgLines := st.msgLines ++ [ln] }
    else
      { inMeta := inMeta1, cids := st.cids,
        signoffs := st.signoffs, msgLines := st.msgLines }

/-- The whole filter: drop blank lines of the concatenated bodies, then
run the loop. -/
def squashFilter (lines : List Str) : SquashFilterState :=
  (lines.filter (fun ln => decide (pyStrip ln ≠ []))).foldl squashFilterStep
    ⟨false, [], [], []⟩

/-- The filter applied to `git log --format=%B --reverse base..head`
output, split into lines. -/
def squashParts (body : Str) : SquashFilterState :=
  squashFilter (body.splitOn '\n')

/-- Python string `<=` on code points, used by `sorted`. -/
def strLe : Str → Str → Bool
  | [], _ => true
  | _ :: _, [] => false
  | a :: as, b :: bs => if a < b then true else if b < a then false else strLe as bs

/-- Python `sorted(set(xs))`: the lexicographically sorted list of the
distinct elements of `xs`. -/
def pySortedSet (xs : List Str) : List Str := xs.dedup.mergeSort strLe

/-- The hardcoded line appended by `_prepare_squashed_commit`. -/
def issueIdLine : Str := "Issue-ID: CIMAN-33".toList

/-- Arguments of the `git_commit_new` call that creates the squashed
commit. -/
structure CommitRequest where
  message : Str
  author : Str
  signoff : Bool
deriving DecidableEq

/-- The commit message composed by `_prepare_squashed_commit`: joined
body lines stripped, `Issue-ID: CIMAN-33` appended, then the sorted
deduplicated sign-offs, then the reused Change-Id when present. -/
def squashCommitMessage (body reuseCid : Str) : Str :=
  let st := squashParts body
  let so := pySortedSet st.signoffs
  let msg1 := pyStrip (joinNL st.msgLines)
  let msg2 := msg1 ++ "\n\n".toList ++ issueIdLine
  let msg3 := if so ≠ [] then msg2 ++ "\n\n".toList ++ joinNL so else msg2
  if reuseCid ≠ [] then msg3 ++ "\n\nChange-Id: ".toList ++ reuseCid else msg3

/-- The `git_commit_new` call issued by `_prepare_squashed_commit`:
synthesized message, author of the PR head commit, sign-off set. -/
def prepare_squashed_commit (body reuseCid headAuthor : Str) : CommitRequest :=
  ⟨squashCommitMessage body reuseCid, headAuthor, true⟩

/-- The final message as claim C1 words it (body, blank line, sorted
sign-offs, blank line, reused Change-Id — nothing else). -/
def claimedSquashMessage (bodyText : Str) (signoffs : List Str) (reuseCid : Str) : Str :=
  let m1 := if signoffs ≠ [] then bodyText ++ "\n\n".toList ++ joinNL signoffs else bodyText
  if reuseCid ≠ [] then m1 ++ "\n\nChange-Id: ".toList ++ reuseCid else m1

/-- The final message as the amended claim words it: the body, a blank
line and `Issue-ID: CIMAN-33`, a blank line and the sorted sign-offs,
a blank line and the reused Change-Id — nothing else. -/
def amendedSquashMessage (bodyText : Str) (signoffs : List Str) (reuseCid : Str) : Str :=
  let m0 := bodyText ++ "\n\n".toList ++ issueIdLine
  let m1 := if signoffs ≠ [] then m0 ++ "\n\n".toList ++ joinNL signoffs else m0
  if reuseCid ≠ [] then m1 ++ "\n\nChange-Id: ".toList ++ reuseCid else m1

-- ---------------------------------------------------------------------
-- core.py: _query_gerrit_for_results
-- ---------------------------------------------------------------------

/-- The fields read from one change in a REST search response:
`str(change.get("_number", ""))` and `change.get("current_revision", "")`. -/
structure ChangeJson where
  num : Str
  currentRev : Str
deriving DecidableEq

/-- A REST exception, with `getattr(exc.response, "status_code", None)`. -/
structure RestErr where
  status : Option ℕ
deriving DecidableEq

/-- The change URL built for a query hit. -/
def changeUrl (host project num : Str) : Str :=
  "https://".toList ++ host ++ "/c/".toList ++ project ++ "/+/".toList ++ num

/-- Appending one REST response to the three output lists: skip an empty
response, otherwise append URL and number when the number is truthy and
the revision sha when present. -/
def processChanges (host project : Str) (acc : SubmissionResult) :
    List ChangeJson → SubmissionResult
  | [] => acc
  | change :: _ =>
    let acc1 :=
      if change.num ≠ [] then
        { acc with
          change_urls := acc.change_urls ++ [changeUrl host project change.num],
          change_numbers := acc.change_numbers ++ [change.num] }
      else acc
    if change.currentRev ≠ [] then
      { acc1 with commit_shas := acc1.commit_shas ++ [change.currentRev] }
    else acc1

/-- One iteration of the query loop for a single Change-Id: skip falsy
ids; on a primary REST failure retry once against the `/r/` base path
when no base path is configured and the status was 404; any remaining
failure just skips the id. -/
def queryStep (basePath host project : Str)
    (primary fallback : Str → Except RestErr (List ChangeJson))
    (acc : SubmissionResult) (cid : Str) : SubmissionResult :=
  if cid = [] then acc
  else
    match primary cid with
    | .ok changes => processChanges host project acc changes
    | .error e =>
      if basePath = [] ∧ e.status = some 404 then
        match fallback cid with
        | .ok changes => processChanges host project acc changes
        | .error _ => acc
      else acc

/-- `_query_gerrit_for_results`: the loop over the submitted Change-Ids,
collecting three order-aligned lists.  `primary`/`fallback` give each
id's REST response on the configured and on the `/r/`-prefixed base
path. -/
def query_gerrit_for_results (basePath host project : Str)
    (primary fallback : Str → Except RestErr (List ChangeJson))
    (change_ids : List Str) : SubmissionResult :=
  change_ids.foldl (queryStep basePath host project primary fallback) ⟨[], [], []⟩

-- ---------------------------------------------------------------------
-- core.py: Orchestrator.execute
-- ---------------------------------------------------------------------

/-- Modelled from the spec: the `Inputs` record lives in the repository's
`models` module, which is not among the sources; only the boolean flags
consulted by `execute` are modelled here (§6 of the spec). -/
structure Inputs where
  dry_run : Bool
  submit_single_commits : Bool
  use_pr_as_commit : Bool
deriving DecidableEq

/-- Modelled from the spec: the `GitHubContext` record lives in the
`models` module, which is not among the sources; only the PR number
consulted by the context guard is modelled. -/
structure GitHubContext where
  pr_number : Option ℕ
deriving DecidableEq

/-- An `OrchestratorError` (or wrapped git/command error) raised by a
pipeline step. -/
inductive OrchErr where
  | missingPrContext
  | stepFailed (label : Str)
deriving DecidableEq

/-- The externally visible pipeline steps of `execute`, in call order. -/
inductive Action where
  | readGitreview
  | deriveRepoNames
  | resolveGerritInfo
  | dryRunPreflight
  | setupSsh
  | configureGit
  | prepareSingleCommits
  | prepareSquashedCommit
  | applyPrTitleBody
  | pushToGerrit
  | queryResults
  | backrefComment
  | commentOnPr
  | closePrIfRequired
deriving DecidableEq

/-- Does the step invoke the external push tool (`git review ...`)? -/
def isPushToolInvocation : Action → Bool
  | .pushToGerrit => true
  | _ => false

/-- Does the step move or rewrite the working tree's HEAD (checkouts,
cherry-picks, commits, amends, branch deletion)? -/
def mutatesHead : Action → Bool
  | .prepareSingleCommits => true
  | .prepareSquashedCommit => true
  | .applyPrTitleBody => true
  | .pushToGerrit => true
  | _ => false

/-- Outcomes of the individual steps, supplied by the environment. -/
structure ExecEnv where
  readGitreview : Except OrchErr (Option GerritInfo)
  deriveRepoNames : Option GerritInfo → Except OrchErr RepoNames
  resolveGerritInfo : Option GerritInfo → RepoNames → Except OrchErr GerritInfo
  dryRunPreflight : GerritInfo → Except OrchErr Unit
  configureGit : GerritInfo → Except OrchErr Unit
  prepareSingle : Except OrchErr PreparedChange
  prepareSquash : Except OrchErr PreparedChange
  applyPrTitleBody : Except OrchErr Unit
  pushToGerrit : Except OrchErr Unit
  queryResults : List Str → Except OrchErr SubmissionResult
  backrefComment : Except OrchErr Unit

/-- `Orchestrator.execute`: the control flow of the pipeline, recording
the steps performed and the returned or raised result.  The dry-run
branch stops after the preflight checks with an empty result; the live
branch runs ssh setup, git configuration, commit preparation (single or
squash), the optional PR title/body override, the push, the result
query and the best-effort terminal comments. -/
def execute (inputs : Inputs) (gh : GitHubContext) (env : ExecEnv) :
    List Action × Except OrchErr SubmissionResult :=
  match gh.pr_number with
  | none => ([], .error .missingPrContext)
  | some _ =>
    match env.readGitreview with
    | .error e => ([.readGitreview], .error e)
    | .ok gitreview =>
      match env.deriveRepoNames gitreview with
      | .error e => ([.readGitreview, .deriveRepoNames], .error e)
      | .ok names =>
        match env.resolveGerritInfo gitreview names with
        | .error e => ([.readGitreview, .deriveRepoNames, .resolveGerritInfo], .error e)
        | .ok gerrit =>
          if inputs.dry_run = true then
            match env.dryRunPreflight gerrit with
            | .error e =>
              ([.readGitreview, .deriveRepoNames, .resolveGerritInfo, .dryRunPreflight],
               .error e)
            | .ok _ =>
              ([.readGitreview, .deriveRepoNames, .resolveGerritInfo, .dryRunPreflight],
               .ok ⟨[], [], []⟩)
          else
            let tr0 := [Action.readGitreview, .deriveRepoNames, .resolveGerritInfo, .setupSsh]
            match env.configureGit gerrit with
            | .error e => (tr0 ++ [.configureGit], .error e)
            | .ok _ =>
              let prepAct :=
                if inputs.submit_single_commits = true then Action.prepareSingleCommits
                else Action.prepareSquashedCommit
              let prepRes :=
                if inputs.submit_single_commits = true then env.prepareSingle
                else env.prepareSquash
              match prepRes with
              | .error e => (tr0 ++ [.configureGit, prepAct], .error e)
              | .ok prep =>
                match env.applyPrTitleBody with
                | .error e => (tr0 ++ [.configureGit, prepAct, .applyPrTitleBody], .error e)
                | .ok _ =>
                  match env.pushToGerrit with
                  | .error e =>
                    (tr0 ++ [.configureGit, prepAct, .applyPrTitleBody, .pushToGerrit],
                     .error e)
                  | .ok _ =>
                    match env.queryResults prep.change_ids with
                    | .error e =>
                      (tr0 ++ [.configureGit, prepAct, .applyPrTitleBody, .pushToGerrit,
                        .queryResults], .error e)
                    | .ok result =>
                      match env.backrefComment with
                      | .error e =>
                        (tr0 ++ [.configureGit, prepAct, .applyPrTitleBody, .pushToGerrit,
                          .queryResults, .backrefComment], .error e)
                      | .ok _ =>
                        (tr0 ++ [.configureGit, prepAct, .applyPrTitleBody, .pushToGerrit,
                          .queryResults, .backrefComment, .commentOnPr, .closePrIfRequired],
                         .ok result)

-- ---------------------------------------------------------------------
-- Supporting lemmas: Python strip
-- ---------------------------------------------------------------------

lemma dropWhile_prefix_self {p : Char → Bool} {t u : Str}
    (hpre : t <+: u) (hu : u.dropWhile p = u) : t.dropWhile p = t := by
  cases t with
  | nil => simp
  | cons a t' =>
    cases u with
    | nil => simp at hpre
    | cons b u' =>
      obtain ⟨rfl, -⟩ := List.cons_prefix_cons.mp hpre
      by_cases hpa : p a = true
      · rw [List.dropWhile_cons, if_pos hpa] at hu
        have h1 := (List.dropWhile_sublist (l := u') p).length_le
        have h2 := congrArg List.length hu
        simp only [List.length_cons] at h2
        omega
      · rw [List.dropWhile_cons, if_neg hpa]

/-- Python `strip` is idempotent. -/
lemma pyStrip_idem (s : Str) : pyStrip (pyStrip s) = pyStrip s := by
  unfold pyStrip
  have h1 : ((s.dropWhile pyIsSpace).rdropWhile pyIsSpace).dropWhile pyIsSpace
      = (s.dropWhile pyIsSpace).rdropWhile pyIsSpace :=
    dropWhile_prefix_self (List.rdropWhile_prefix _ _)
      (List.dropWhile_idempotent _ _)
  rw [h1, List.rdropWhile_idempotent]

-- ---------------------------------------------------------------------
-- Supporting lemmas: mask_text and replaceAll
-- ---------------------------------------------------------------------

lemma infix_of_infix_stars_append {u v : Str} (stars : Str)
    (hstars : ∀ c ∈ stars, c = '*') (hu : ('*' : Char) ∉ u) (hne : u ≠ [])
    (h : u <:+: stars ++ v) : u <:+: v := by
  induction stars with
  | nil => simpa using h
  | cons c cs ih =>
    have hc : c = '*' := hstars c (by simp)
    rcases List.infix_cons_iff.mp (by simpa using h) with hpre | hinf
    · cases u with
      | nil => exact absurd rfl hne
      | cons a u' =>
        obtain ⟨hac, -⟩ := List.cons_prefix_cons.mp hpre
        exact absurd (by simp [hac, hc]) hu
    · exact ih (fun d hd => hstars d (by simp [hd])) hinf

lemma star3_chars : ∀ c ∈ star3, c = '*' := by decide

/-- A star-free prefix of the replaced text is a prefix of the original. -/
lemma prefix_replaceAll {t : Str} (s : Str) :
    ∀ u : Str, ('*' : Char) ∉ u → u <+: replaceAll t star3 s → u <+: s := by
  induction s using replaceAll.induct t star3 with
  | case1 =>
    intro u hu h
    rw [replaceAll] at h
    simpa using h
  | case2 c rest hcond ih =>
    intro u hu h
    rw [replaceAll, if_pos hcond] at h
    cases u with
    | nil => simp
    | cons a u' =>
      have ha : a = '*' := (List.cons_prefix_cons.mp h).1
      exact absurd (by simp [ha]) hu
  | case3 c rest hcond ih =>
    intro u hu h
    rw [replaceAll, if_neg hcond] at h
    cases u with
    | nil => simp
    | cons a u' =>
      obtain ⟨rfl, hpre⟩ := List.cons_prefix_cons.mp h
      have hu' : ('*' : Char) ∉ u' := fun hx => hu (by simp [hx])
      exact List.cons_prefix_cons.mpr ⟨rfl, ih u' hu' hpre⟩

/-- A star-free infix of the replaced text is an infix of the original. -/
lemma infix_replaceAll {t : Str} (s : Str) :
    ∀ u : Str, ('*' : Char) ∉ u → u <:+: replaceAll t star3 s → u <:+: s := by
  induction s using replaceAll.induct t star3 with
  | case1 =>
    intro u hu h
    rw [replaceAll] at h
    simpa using h
  | case2 c rest hcond ih =>
    intro u hu h
    rw [replaceAll, if_pos hcond] at h
    rcases eq_or_ne u [] with rfl | hne
    · simp
    · have h2 := ih u hu (infix_of_infix_stars_append star3 star3_chars hu hne h)
      exact h2.trans (List.drop_suffix _ _).isInfix
  | case3 c rest hcond ih =>
    intro u hu h
    rw [replaceAll, if_neg hcond] at h
    rcases List.infix_cons_iff.mp h with hpre | hinf
    · cases u with
      | nil => simp
      | cons a u' =>
        obtain ⟨rfl, hp⟩ := List.cons_prefix_cons.mp hpre
        have hu' : ('*' : Char) ∉ u' := fun hx => hu (by simp [hx])
        exact (List.cons_prefix_cons.mpr ⟨rfl, prefix_replaceAll rest u' hu' hp⟩).isInfix
    · exact List.infix_cons (ih u hu hinf)

/-- After replacing every occurrence of a star-free token by `"***"`, the
token no longer occurs. -/
lemma not_infix_replaceAll_self {t : Str} (ht : t ≠ [])
    (hstar : ('*' : Char) ∉ t) (s : Str) : ¬ t <:+: replaceAll t star3 s := by
  induction s using replaceAll.induct t star3 with
  | case1 =>
    rw [replaceAll]
    intro h
    exact ht (List.infix_nil.mp h)
  | case2 c rest hcond ih =>
    rw [replaceAll, if_pos hcond]
    intro h
    exact ih (infix_of_infix_stars_append star3 star3_chars hstar ht h)
  | case3 c rest hcond ih =>
    rw [replaceAll, if_neg hcond]
    intro h
    rcases List.infix_cons_iff.mp h with hpre | hinf
    · cases t with
      | nil => exact ht rfl
      | cons a t' =>
        obtain ⟨hac, hp⟩ := List.cons_prefix_cons.mp hpre
        have ht' : ('*' : Char) ∉ t' := fun hx => hstar (by simp [hx])
        have hp2 : t' <+: rest := prefix_replaceAll rest t' ht' hp
        refine hcond ⟨ht, ?_⟩
        rw [List.isPrefixOf_iff_prefix]
        exact List.cons_prefix_cons.mpr ⟨hac, hp2⟩
    · exact ih hinf

/-- Replacing a token that does not occur leaves the text unchanged. -/
lemma replaceAll_of_not_infix {t r : Str} (s : Str) (h : ¬ t <:+: s) :
    replaceAll t r s = s := by
  induction s using replaceAll.induct t r with
  | case1 => rw [replaceAll]
  | case2 c rest hcond ih =>
    exact absurd ((List.isPrefixOf_iff_prefix.mp hcond.2).isInfix) h
  | case3 c rest hcond ih =>
    rw [replaceAll, if_neg hcond, ih (fun hx => h (List.infix_cons hx))]

lemma not_infix_mask_text {u : Str} {masks : List Str} {s : Str}
    (hu : ('*' : Char) ∉ u) (h : ¬ u <:+: s) : ¬ u <:+: mask_text s masks := by
  induction masks generalizing s with
  | nil => simpa [mask_text] using h
  | cons m ms ih =>
    simp only [mask_text, List.foldl_cons] at *
    split
    · exact ih h
    · exact ih (fun hx => h (infix_replaceAll s u hu hx))

lemma not_infix_mask_text_own {masks : List Str} {s : Str}
    (hstars : ∀ m ∈ masks, ('*' : Char) ∉ m) :
    ∀ t ∈ masks, t ≠ [] → ¬ t <:+: mask_text s masks := by
  induction masks generalizing s with
  | nil => simp
  | cons m ms ih =>
    intro t ht htne
    rcases List.mem_cons.mp ht with rfl | htms
    · simp only [mask_text, List.foldl_cons, if_neg htne]
      exact not_infix_mask_text (hstars t ht)
        (not_infix_replaceAll_self htne (hstars t ht) s)
    · simp only [mask_text, List.foldl_cons]
      split
      · exact ih (fun x hx => hstars x (by simp [hx])) t htms htne
      · exact ih (fun x hx => hstars x (by simp [hx])) t htms htne

lemma mask_text_of_no_infix {masks : List Str} {s : Str}
    (h : ∀ t ∈ masks, t = [] ∨ ¬ t <:+: s) : mask_text s masks = s := by
  induction masks with
  | nil => rfl
  | cons m ms ih =>
    simp only [mask_text, List.foldl_cons]
    rcases h m (by simp) with hm | hm
    · rw [if_pos hm]
      exact ih (fun t ht => h t (by simp [ht]))
    · rw [if_neg (fun he => hm (by simp [he])), replaceAll_of_not_infix s hm]
      exact ih (fun t ht => h t (by simp [ht]))

-- ---------------------------------------------------------------------
-- Supporting lemmas: lexicographic comparison and sorted sets
-- ---------------------------------------------------------------------

lemma strLe_total (a b : Str) : strLe a b = true ∨ strLe b a = true := by
  induction a generalizing b with
  | nil => left; rfl
  | cons x xs ih =>
    cases b with
    | nil => right; rfl
    | cons y ys =>
      rcases lt_trichotomy x y with h | h | h
      · left; simp [strLe, h]
      · subst h
        rcases ih ys with h2 | h2
        · left; simpa [strLe, lt_irrefl] using h2
        · right; simpa [strLe, lt_irrefl] using h2
      · right; simp [strLe, h]

lemma strLe_trans (a b c : Str) (hab : strLe a b = true) (hbc : strLe b c = true) :
    strLe a c = true := by
  induction a generalizing b c with
  | nil => rfl
  | cons x xs ih =>
    cases b with
    | nil => simp [strLe] at hab
    | cons y ys =>
      cases c with
      | nil => simp [strLe] at hbc
      | cons z zs =>
        by_cases hxy : x < y
        · by_cases hyz : y < z
          · simp [strLe, lt_trans hxy hyz]
          · by_cases hzy : z < y
            · simp [strLe, hyz, hzy] at hbc
            · have hyzeq : y = z := le_antisymm (not_lt.mp hzy) (not_lt.mp hyz)
              subst hyzeq
              simp [strLe, hxy]
        · by_cases hyx : y < x
          · simp [strLe, hxy, hyx] at hab
          · have hxyeq : x = y := le_antisymm (not_lt.mp hyx) (not_lt.mp hxy)
            subst hxyeq
            simp only [strLe, lt_irrefl, if_false] at hab
            by_cases hxz : x < z
            · simp [strLe, hxz]
            · by_cases hzx : z < x
              · simp [strLe, hxz, hzx] at hbc
              · have hxzeq : x = z := le_antisymm (not_lt.mp hzx) (not_lt.mp hxz)
                subst hxzeq
                simp only [strLe, lt_irrefl, if_false] at hbc ⊢
                exact ih ys zs hab hbc

lemma pySortedSet_sorted (xs : List Str) :
    (pySortedSet xs).Pairwise (fun a b => strLe a b = true) := by
  apply List.sorted_mergeSort strLe_trans
  intro a b
  rcases strLe_total a b with h | h <;> simp [h]

lemma pySortedSet_nodup (xs : List Str) : (pySortedSet xs).Nodup :=
  ((xs.dedup.mergeSort_perm strLe).nodup_iff).mpr (List.nodup_dedup xs)

lemma pySortedSet_mem (xs : List Str) (x : Str) : x ∈ pySortedSet xs ↔ x ∈ xs :=
  ((xs.dedup.mergeSort_perm strLe).mem_iff).trans (List.mem_dedup)

-- ---------------------------------------------------------------------
-- Supporting lemmas: first-occurrence deduplication
-- ---------------------------------------------------------------------

lemma dedupFirstGo_eq (l : List Str) :
    ∀ acc, dedupFirstGo acc l = acc ++ specDedup (l.filter (fun x => decide (x ∉ acc))) := by
  induction l with
  | nil => intro acc; simp [dedupFirstGo, specDedup]
  | cons c cs ih =>
    intro acc
    by_cases hc : c ∈ acc
    · rw [dedupFirstGo, if_pos hc, ih]
      simp [List.filter_cons, hc]
    · rw [dedupFirstGo, if_neg hc, ih]
      have hfil : cs.filter (fun x => decide (x ∉ acc ++ [c]))
          = (cs.filter (fun x => decide (x ∉ acc))).filter (fun x => decide (x ≠ c)) := by
        rw [List.filter_filter]
        apply List.filter_congr
        intro x hx
        by_cases h1 : x ∈ acc <;> by_cases h2 : x = c <;> simp [h1, h2]
      rw [hfil]
      have hcons : (c :: cs).filter (fun x => decide (x ∉ acc))
          = c :: cs.filter (fun x => decide (x ∉ acc)) := by
        simp [List.filter_cons, hc]
      rw [hcons, specDedup]
      simp

/-- The code's dedup loop computes exactly the spec's first-occurrence
deduplication. -/
lemma dedupFirst_eq_specDedup (l : List Str) : dedupFirstGo [] l = specDedup l := by
  rw [dedupFirstGo_eq]
  simp

-- ---------------------------------------------------------------------
-- Supporting lemmas: Change-Id accumulation
-- ---------------------------------------------------------------------

lemma foldl_append_eq_flatten_map {α β : Type} (f : α → List β) (l : List α) :
    ∀ init : List β, l.foldl (fun acc c => acc ++ f c) init = init ++ (l.map f).flatten := by
  induction l with
  | nil => intro init; simp
  | cons c cs ih =>
    intro init
    simp only [List.foldl_cons, List.map_cons, List.flatten_cons, ih]
    simp [List.append_assoc]

lemma accumulatedChangeIds_eq_flatten (commits : List Str) (cidOf : Str → List Str) :
    accumulatedChangeIds commits cidOf
      = (commits.map (fun c => (cidOf c).filter (fun cid => decide (cid ≠ [])))).flatten := by
  rw [accumulatedChangeIds, foldl_append_eq_flatten_map]
  simp

lemma flatten_length_of_forall_one {α : Type} (ls : List (List α))
    (h : ∀ x ∈ ls, x.length = 1) : ls.flatten.length = ls.length := by
  induction ls with
  | nil => simp
  | cons x xs ih =>
    simp only [List.flatten_cons, List.length_append, List.length_cons,
      h x (by simp)]
    rw [ih (fun y hy => h y (by simp [hy]))]
    omega

-- ---------------------------------------------------------------------
-- Supporting lemmas: trailer parsing
-- ---------------------------------------------------------------------

lemma lineParse_props {raw k v : Str} (h : lineParse raw = some (k, v)) :
    k ≠ [] ∧ pyStrip k = k ∧ v ≠ [] ∧ pyStrip v = v := by
  simp only [lineParse] at h
  split at h
  · exact absurd h (by simp)
  · split at h
    · exact absurd h (by simp)
    · rename_i hne
      injection h with h2
      injection h2 with h3 h4
      subst h3
      subst h4
      push_neg at hne
      exact ⟨hne.1, pyStrip_idem _, hne.2, pyStrip_idem _⟩

lemma lookupVals_addTrailer (m : List (Str × List Str)) (k k' : Str) (v : Str) :
    lookupVals k (addTrailer m k' v)
      = if k' = k then lookupVals k m ++ [v] else lookupVals k m := by
  induction m with
  | nil => by_cases h : k' = k <;> simp [addTrailer, lookupVals, h]
  | cons p rest ih =>
    obtain ⟨k0, vs⟩ := p
    by_cases h0 : k0 = k'
    · subst h0
      by_cases hk : k0 = k <;> simp [addTrailer, lookupVals, hk]
    · by_cases hk : k0 = k
      · subst hk
        have hne : ¬ k' = k0 := fun he => h0 he.symm
        simp [addTrailer, lookupVals, h0, hne]
      · simp [addTrailer, lookupVals, h0, hk, ih]

/-- Entry-wise invariant preserved by `addTrailer`. -/
lemma addTrailer_forall {P : Str → Prop} {Q : Str → Prop}
    {m : List (Str × List Str)} {k v : Str}
    (hm : ∀ p ∈ m, P p.1 ∧ p.2 ≠ [] ∧ ∀ x ∈ p.2, Q x)
    (hk : P k) (hv : Q v) :
    ∀ p ∈ addTrailer m k v, P p.1 ∧ p.2 ≠ [] ∧ ∀ x ∈ p.2, Q x := by
  induction m with
  | nil =>
    intro p hp
    simp only [addTrailer, List.mem_singleton] at hp
    subst hp
    refine ⟨hk, by simp, ?_⟩
    intro x hx
    rw [List.mem_singleton] at hx
    subst hx
    exact hv
  | cons q rest ih =>
    obtain ⟨k0, vs⟩ := q
    intro p hp
    rw [addTrailer] at hp
    split at hp
    · rcases List.mem_cons.mp hp with rfl | hpr
      · obtain ⟨h1, h2, h3⟩ := hm (k0, vs) (by simp)
        refine ⟨h1, by simp, ?_⟩
        intro x hx
        rcases List.mem_append.mp hx with hx1 | hx2
        · exact h3 x hx1
        · rw [List.mem_singleton] at hx2
          subst hx2
          exact hv
      · exact hm _ (by simp [hpr])
    · rcases List.mem_cons.mp hp with rfl | hpr
      · exact hm _ (by simp)
      · exact ih (fun q hq => hm q (by simp [hq])) _ hpr

lemma parseLines_invariant (lines : List Str) :
    ∀ m, (∀ p ∈ m, (p.1 ≠ [] ∧ pyStrip p.1 = p.1) ∧ p.2 ≠ [] ∧
            ∀ x ∈ p.2, x ≠ [] ∧ pyStrip x = x) →
      ∀ p ∈ lines.foldl
          (fun m raw =>
            match lineParse raw with
            | none => m
            | some kv => addTrailer m kv.1 kv.2) m,
        (p.1 ≠ [] ∧ pyStrip p.1 = p.1) ∧ p.2 ≠ [] ∧ ∀ x ∈ p.2, x ≠ [] ∧ pyStrip x = x := by
  induction lines with
  | nil => intro m hm; simpa using hm
  | cons raw ls ih =>
    intro m hm
    simp only [List.foldl_cons]
    cases hlp : lineParse raw with
    | none => exact ih m hm
    | some kv =>
      obtain ⟨k1, v1⟩ := kv
      obtain ⟨hk1, hk2, hv1, hv2⟩ := lineParse_props hlp
      exact ih _ (addTrailer_forall (P := fun s => s ≠ [] ∧ pyStrip s = s)
        (Q := fun s => s ≠ [] ∧ pyStrip s = s) hm ⟨hk1, hk2⟩ ⟨hv1, hv2⟩)

lemma parseLines_lookup (lines : List Str) :
    ∀ (m : List (Str × List Str)) (k : Str),
      lookupVals k (lines.foldl
          (fun m raw =>
            match lineParse raw with
            | none => m
            | some kv => addTrailer m kv.1 kv.2) m)
        = lookupVals k m
          ++ (lines.filterMap lineParse).filterMap
              (fun p => if p.1 = k then some p.2 else none) := by
  induction lines with
  | nil => intro m k; simp
  | cons raw ls ih =>
    intro m k
    simp only [List.foldl_cons, List.filterMap_cons]
    cases hlp : lineParse raw with
    | none => simpa using ih m k
    | some kv =>
      simp only [List.filterMap_cons]
      rw [ih, lookupVals_addTrailer]
      by_cases hk : kv.1 = k
      · simp [hk, List.append_assoc]
      · simp [hk]

-- ---------------------------------------------------------------------
-- Supporting lemmas: retry loop
-- ---------------------------------------------------------------------

lemma runGo_error {retries : ℕ} {check : Bool} {pred : CommandResult → Bool}
    {attempts : ℕ → Except CommandError CommandResult} {attempt : ℕ} {e : CommandError}
    (h : attempts attempt = .error e) :
    runCmdWithRetriesGo retries check pred attempts attempt = ⟨.error e, attempt, []⟩ := by
  rw [runCmdWithRetriesGo, h]

lemma runGo_stop {retries : ℕ} {check : Bool} {pred : CommandResult → Bool}
    {attempts : ℕ → Except CommandError CommandResult} {attempt : ℕ} {res : CommandResult}
    (h : attempts attempt = .ok res)
    (hstop : res.returncode = 0 ∨ attempt > retries + 1) :
    runCmdWithRetriesGo retries check pred attempts attempt =
      if check = true ∧ res.returncode ≠ 0 then
        ⟨.error (afterRetriesError res), attempt, []⟩
      else ⟨.ok res, attempt, []⟩ := by
  rw [runCmdWithRetriesGo, h]
  dsimp only
  rw [if_pos hstop]

lemma runGo_retry {retries : ℕ} {check : Bool} {pred : CommandResult → Bool}
    {attempts : ℕ → Except CommandError CommandResult} {attempt : ℕ} {res : CommandResult}
    (h : attempts attempt = .ok res) (h0 : res.returncode ≠ 0)
    (hle : attempt ≤ retries + 1) (hp : pred res = true) :
    runCmdWithRetriesGo retries check pred attempts attempt =
      ⟨(runCmdWithRetriesGo retries check pred attempts (attempt + 1)).outcome,
       (runCmdWithRetriesGo retries check pred attempts (attempt + 1)).invocations,
       backoff_delay attempt ::
         (runCmdWithRetriesGo retries check pred attempts (attempt + 1)).sleeps⟩ := by
  rw [runCmdWithRetriesGo, h]
  dsimp only
  rw [if_neg (by push_neg; exact ⟨h0, by omega⟩), if_pos hp]

lemma runGo_noretry {retries : ℕ} {check : Bool} {pred : CommandResult → Bool}
    {attempts : ℕ → Except CommandError CommandResult} {attempt : ℕ} {res : CommandResult}
    (h : attempts attempt = .ok res) (h0 : res.returncode ≠ 0)
    (hle : attempt ≤ retries + 1) (hp : pred res = false) :
    runCmdWithRetriesGo retries check pred attempts attempt =
      if check = true then ⟨.error (nonRetryableError res), attempt, []⟩
      else ⟨.ok res, attempt, []⟩ := by
  rw [runCmdWithRetriesGo, h]
  dsimp only
  rw [if_neg (by push_neg; exact ⟨h0, by omega⟩), if_neg (by simp [hp])]

lemma runGo_exhausted {retries : ℕ} {pred : CommandResult → Bool}
    {attempts : ℕ → Except CommandError CommandResult} {attempt : ℕ} {res : CommandResult}
    (h : attempts attempt = .ok res) (h0 : res.returncode ≠ 0)
    (hgt : attempt > retries + 1) :
    runCmdWithRetriesGo retries true pred attempts attempt =
      ⟨.error (afterRetriesError res), attempt, []⟩ := by
  rw [runGo_stop h (Or.inr hgt), if_pos ⟨rfl, h0⟩]

lemma runGo_invocations_le (retries : ℕ) (check : Bool) (pred : CommandResult → Bool)
    (attempts : ℕ → Except CommandError CommandResult) :
    ∀ attempt, (runCmdWithRetriesGo retries check pred attempts attempt).invocations
      ≤ max attempt (retries + 2) := by
  intro attempt
  induction attempt using runCmdWithRetriesGo.induct retries check pred attempts with
  | case1 attempt e h =>
    rw [runGo_error h]
    simp
  | case2 attempt res h hstop hc =>
    rw [runGo_stop h hstop, if_pos hc]
    simp
  | case3 attempt res h hstop hc =>
    rw [runGo_stop h hstop, if_neg hc]
    simp
  | case4 attempt res h hstop hp ih =>
    have hle : attempt ≤ retries + 1 := by
      rcases not_or.mp hstop with ⟨-, h2⟩
      omega
    have h0 : res.returncode ≠ 0 := (not_or.mp hstop).1
    rw [runGo_retry h h0 hle hp]
    simp only
    omega
  | case5 attempt res h hstop hp hc =>
    have hle : attempt ≤ retries + 1 := by
      rcases not_or.mp hstop with ⟨-, h2⟩
      omega
    have h0 : res.returncode ≠ 0 := (not_or.mp hstop).1
    rw [runGo_noretry h h0 hle (by simpa using hp), if_pos hc]
    simp
  | case6 attempt res h hstop hp hc =>
    have hle : attempt ≤ retries + 1 := by
      rcases not_or.mp hstop with ⟨-, h2⟩
      omega
    have h0 : res.returncode ≠ 0 := (not_or.mp hstop).1
    rw [runGo_noretry h h0 hle (by simpa using hp), if_neg hc]
    simp

lemma runGo_sleeps_backoff (retries : ℕ) (check : Bool) (pred : CommandResult → Bool)
    (attempts : ℕ → Except CommandError CommandResult) :
    ∀ attempt, ∀ d ∈ (runCmdWithRetriesGo retries check pred attempts attempt).sleeps,
      ∃ j : ℕ, attempt ≤ j ∧ d = backoff_delay j := by
  intro attempt
  induction attempt using runCmdWithRetriesGo.induct retries check pred attempts with
  | case1 attempt e h =>
    rw [runGo_error h]
    simp
  | case2 attempt res h hstop hc =>
    rw [runGo_stop h hstop, if_pos hc]
    simp
  | case3 attempt res h hstop hc =>
    rw [runGo_stop h hstop, if_neg hc]
    simp
  | case4 attempt res h hstop hp ih =>
    have hle : attempt ≤ retries + 1 := by
      rcases not_or.mp hstop with ⟨-, h2⟩
      omega
    have h0 : res.returncode ≠ 0 := (not_or.mp hstop).1
    rw [runGo_retry h h0 hle hp]
    intro d hd
    rcases List.mem_cons.mp hd with rfl | hd2
    · exact ⟨attempt, le_refl _, rfl⟩
    · obtain ⟨j, hj1, hj2⟩ := ih d hd2
      exact ⟨j, by omega, hj2⟩
  | case5 attempt res h hstop hp hc =>
    have hle : attempt ≤ retries + 1 := by
      rcases not_or.mp hstop with ⟨-, h2⟩
      omega
    have h0 : res.returncode ≠ 0 := (not_or.mp hstop).1
    rw [runGo_noretry h h0 hle (by simpa using hp), if_pos hc]
    simp
  | case6 attempt res h hstop hp hc =>
    have hle : attempt ≤ retries + 1 := by
      rcases not_or.mp hstop with ⟨-, h2⟩
      omega
    have h0 : res.returncode ≠ 0 := (not_or.mp hstop).1
    rw [runGo_noretry h h0 hle (by simpa using hp), if_neg hc]
    simp

-- ---------------------------------------------------------------------
-- Supporting lemmas: result query
-- ---------------------------------------------------------------------

/-- Componentwise concatenation of two query results. -/
def mergeResults (a b : SubmissionResult) : SubmissionResult :=
  ⟨a.change_urls ++ b.change_urls,
   a.change_numbers ++ b.change_numbers,
   a.commit_shas ++ b.commit_shas⟩

lemma mergeResults_empty_right (a : SubmissionResult) :
    mergeResults a ⟨[], [], []⟩ = a := by
  cases a
  simp [mergeResults]

lemma mergeResults_assoc (a b c : SubmissionResult) :
    mergeResults (mergeResults a b) c = mergeResults a (mergeResults b c) := by
  simp [mergeResults, List.append_assoc]

lemma processChanges_merge (host project : Str) (a d : SubmissionResult)
    (cs : List ChangeJson) :
    processChanges host project (mergeResults a d) cs
      = mergeResults a (processChanges host project d cs) := by
  cases cs with
  | nil => rfl
  | cons change rest =>
    simp only [processChanges]
    split
    · split
      · simp [mergeResults, List.append_assoc]
      · simp [mergeResults, List.append_assoc]
    · split
      · simp [mergeResults, List.append_assoc]
      · simp [mergeResults, List.append_assoc]

lemma queryStep_merge (basePath host project : Str)
    (primary fallback : Str → Except RestErr (List ChangeJson))
    (a d : SubmissionResult) (cid : Str) :
    queryStep basePath host project primary fallback (mergeResults a d) cid
      = mergeResults a (queryStep basePath host project primary fallback d cid) := by
  by_cases hcid : cid = []
  · simp [queryStep, hcid]
  · cases hpc : primary cid with
    | ok changes => simp [queryStep, hcid, hpc, processChanges_merge]
    | error e =>
      by_cases hbp : basePath = [] ∧ e.status = some 404
      · cases hf : fallback cid with
        | ok changes => simp [queryStep, hcid, hpc, hf, hbp, processChanges_merge]
        | error e2 => simp [queryStep, hcid, hpc, hf, hbp]
      · simp [queryStep, hcid, hpc, hbp]

lemma query_foldl_merge (basePath host project : Str)
    (primary fallback : Str → Except RestErr (List ChangeJson)) (l : List Str) :
    ∀ a : SubmissionResult,
      l.foldl (queryStep basePath host project primary fallback) a
        = mergeResults a (query_gerrit_for_results basePath host project primary fallback l) := by
  induction l with
  | nil =>
    intro a
    simp [query_gerrit_for_results, mergeResults_empty_right]
  | cons c cs ih =>
    intro a
    have hstep : queryStep basePath host project primary fallback a c
        = mergeResults a (queryStep basePath host project primary fallback ⟨[], [], []⟩ c) := by
      conv =>
        lhs
        rw [← mergeResults_empty_right a]
      exact queryStep_merge basePath host project primary fallback a ⟨[], [], []⟩ c
    simp only [List.foldl_cons, query_gerrit_for_results]
    rw [ih, hstep, ih, mergeResults_assoc]

lemma queryStep_failed {basePath host project : Str}
    {primary fallback : Str → Except RestErr (List ChangeJson)}
    {bad : Str} (acc : SubmissionResult)
    (hfail :
      (∃ e, primary bad = .error e ∧ ¬ (basePath = [] ∧ e.status = some 404)) ∨
      (∃ e e2, primary bad = .error e ∧ basePath = [] ∧ e.status = some 404 ∧
        fallback bad = .error e2)) :
    queryStep basePath host project primary fallback acc bad = acc := by
  by_cases hcid : bad = []
  · simp [queryStep, hcid]
  · rcases hfail with ⟨e, he, hnot⟩ | ⟨e, e2, he, hbp, hst, hf⟩
    · simp [queryStep, hcid, he, hnot]
    · simp [queryStep, hcid, he, hf, hbp, hst]

-- ---------------------------------------------------------------------
-- Claim theorems
-- ---------------------------------------------------------------------

/-- C8 counterexample: `mask_text` is not idempotent for every mask set —
with the mask set `{"*"}` and the text `"*"`, one application yields
`"***"` and a second application yields `"*********"`. -/
theorem c8_counterexample :
    mask_text (mask_text ['*'] [['*']]) [['*']] ≠ mask_text ['*'] [['*']] := by
  have h1 : mask_text ['*'] [['*']] = ['*', '*', '*'] := by
    simp [mask_text, replaceAll, star3]
  have h2 : mask_text ['*', '*', '*'] [['*']]
      = ['*', '*', '*', '*', '*', '*', '*', '*', '*'] := by
    simp [mask_text, replaceAll, star3]
  rw [h1, h2]
  decide

/-- C8 (amended): for every text and every mask set whose tokens do not
contain the mask character `*`, applying `mask_text` twice with the same
mask set yields the same result as applying it once; and a mask set
containing an empty-string token leaves the text unchanged by that
token. -/
theorem c8_mask_text_idempotent :
    (∀ (masks : List Str) (text : Str), (∀ m ∈ masks, ('*' : Char) ∉ m) →
        mask_text (mask_text text masks) masks = mask_text text masks)
    ∧ (∀ (ms1 ms2 : List Str) (text : Str),
        mask_text text (ms1 ++ [] :: ms2) = mask_text text (ms1 ++ ms2)) := by
  constructor
  · intro masks text h
    apply mask_text_of_no_infix
    intro t ht
    rcases eq_or_ne t [] with rfl | htne
    · exact Or.inl rfl
    · exact Or.inr (not_infix_mask_text_own h t ht htne)
  · intro ms1 ms2 text
    rw [mask_text, mask_text, List.foldl_append, List.foldl_append, List.foldl_cons]
    simp

/-- C8 witness: the idempotence theorem applied to the token `secret` in
a concrete text. -/
theorem c8_witness :
    mask_text (mask_text "x secret y".toList ["secret".toList]) ["secret".toList]
      = mask_text "x secret y".toList ["secret".toList] :=
  c8_mask_text_idempotent.1 ["secret".toList] "x secret y".toList (by decide)

/-- C9: when the `run_cmd` invocation of the current attempt itself
raises a `CommandError` (timeout or exec failure), `run_cmd_with_retries`
— and hence the `git` wrapper — propagates exactly that error from the
current attempt, with no further invocation and no sleep, for every
retry budget and retry predicate. -/
theorem c9_command_error_propagates :
    (∀ (retries : ℕ) (check : Bool) (pred : CommandResult → Bool)
       (attempts : ℕ → Except CommandError CommandResult) (attempt : ℕ) (e : CommandError),
        attempts attempt = .error e →
          runCmdWithRetriesGo retries check pred attempts attempt = ⟨.error e, attempt, []⟩)
    ∧ (∀ (retries : ℕ) (check : Bool) (pred : CommandResult → Bool)
        (attempts : ℕ → Except CommandError CommandResult) (e : CommandError),
        attempts 1 = .error e →
          run_cmd_with_retries retries check pred attempts = ⟨.error e, 1, []⟩)
    ∧ (∀ (retries : ℕ) (check : Bool)
        (attempts : ℕ → Except CommandError CommandResult) (e : CommandError),
        attempts 1 = .error e → gitRun retries check attempts = ⟨.error e, 1, []⟩) :=
  ⟨fun _ _ _ _ _ _ h => runGo_error h,
   fun _ _ _ _ _ h => runGo_error h,
   fun _ _ _ _ h => runGo_error h⟩

/-- C9 witness: a timeout-style `CommandError` on attempt 1 is returned
as-is after exactly one invocation and no sleeps. -/
theorem c9_witness :
    run_cmd_with_retries 2 true defaultRetryOn
        (fun _ => .error ⟨"Command timed out".toList, none, none, none⟩)
      = ⟨.error ⟨"Command timed out".toList, none, none, none⟩, 1, []⟩ :=
  c9_command_error_propagates.2.1 2 true defaultRetryOn
    (fun _ => .error ⟨"Command timed out".toList, none, none, none⟩)
    ⟨"Command timed out".toList, none, none, none⟩ rfl

/-- C7 counterexample: no jitter term is added to the backoff delay —
at attempt 1 the slept delay is exactly `min(base·2^0, cap)`, so no
positive jitter summand exists. -/
theorem c7_counterexample :
    ¬ ∃ j : ℚ, 0 < j ∧
      backoff_delay 1 = min (backoffBase * 2 ^ ((1 : ℕ) - 1)) backoffCap + j := by
  rintro ⟨j, hj, he⟩
  rw [backoff_delay] at he
  simp only [backoffBase, backoffCap] at he
  norm_num at he
  linarith

/-- C7 (amended): the delay slept between retry attempts equals exactly
`min(base·2^(attempt-1), cap)` with `base = 0.5` and `cap = 5.0`; no
jitter is added. -/
theorem c7_backoff_delay_exact :
    (∀ attempt : ℕ, 1 ≤ attempt →
        backoff_delay attempt = min ((1 / 2 : ℚ) * 2 ^ (attempt - 1)) 5)
    ∧ (∀ (retries : ℕ) (check : Bool) (pred : CommandResult → Bool)
        (attempts : ℕ → Except CommandError CommandResult),
        ∀ d ∈ (run_cmd_with_retries retries check pred attempts).sleeps,
          ∃ attempt : ℕ, 1 ≤ attempt ∧
            d = min ((1 / 2 : ℚ) * 2 ^ (attempt - 1)) 5) := by
  have hb : ∀ attempt : ℕ,
      backoff_delay attempt = min ((1 / 2 : ℚ) * 2 ^ (attempt - 1)) 5 := by
    intro attempt
    rw [backoff_delay, backoffBase, backoffCap, Nat.max_eq_right (Nat.zero_le _)]
  constructor
  · intro attempt _
    exact hb attempt
  · intro retries check pred attempts d hd
    obtain ⟨j, hj1, hj2⟩ := runGo_sleeps_backoff retries check pred attempts 1 d hd
    exact ⟨j, hj1, by rw [hj2, hb]⟩

/-- C7 witness: the exact-delay theorem applied at attempt 1. -/
theorem c7_witness :
    backoff_delay 1 = min ((1 / 2 : ℚ) * 2 ^ ((1 : ℕ) - 1)) 5 :=
  c7_backoff_delay_exact.1 1 (by decide)

/-- C3 counterexample: the retry budget is not `retries` re-invocations —
with `retries = 0` and a persistently transient failure the command is
still re-invoked once, for 2 invocations in total. -/
theorem c3_counterexample :
    ¬ (run_cmd_with_retries 0 true defaultRetryOn
        (fun _ => .ok ⟨128, [], "could not resolve host: example.com".toList⟩)).invocations
      ≤ 0 + 1 := by
  have h2 : runCmdWithRetriesGo 0 true defaultRetryOn
      (fun _ => .ok ⟨128, [], "could not resolve host: example.com".toList⟩) 2
      = ⟨.error (afterRetriesError ⟨128, [], "could not resolve host: example.com".toList⟩),
         2, []⟩ :=
    runGo_exhausted rfl (by decide) (by omega)
  have h1 := @runGo_retry 0 true defaultRetryOn
    (fun _ => .ok ⟨128, [], "could not resolve host: example.com".toList⟩)
    1 ⟨128, [], "could not resolve host: example.com".toList⟩
    rfl (by decide) (by omega) (by decide)
  rw [run_cmd_with_retries, h1, h2]
  decide

/-- C3 (amended): a failed command is re-invoked exactly when the failure
is transient (stderr contains one of the fixed substrings,
case-insensitively; `could not resolve host: example.com` is transient,
`permanent failure` is not); a non-transient failure raises a
`CommandError` at once when `check` is set, exhaustion of the budget of
`retries + 1` re-invocations (`retries + 2` invocations in total) raises
a `CommandError` when `check` is set, and no run ever exceeds
`retries + 2` invocations. -/
theorem c3_transient_retry :
    (is_transient_git_error "could not resolve host: example.com".toList = true
      ∧ is_transient_git_error "permanent failure".toList = false)
    ∧ (∀ (retries : ℕ) (check : Bool) (attempts : ℕ → Except CommandError CommandResult)
         (attempt : ℕ) (res : CommandResult),
        attempts attempt = .ok res → res.returncode ≠ 0 → attempt ≤ retries + 1 →
          (defaultRetryOn res = true →
            runCmdWithRetriesGo retries check defaultRetryOn attempts attempt
              = ⟨(runCmdWithRetriesGo retries check defaultRetryOn attempts (attempt + 1)).outcome,
                 (runCmdWithRetriesGo retries check defaultRetryOn attempts (attempt + 1)).invocations,
                 backoff_delay attempt ::
                   (runCmdWithRetriesGo retries check defaultRetryOn attempts (attempt + 1)).sleeps⟩)
          ∧ (defaultRetryOn res = false →
              runCmdWithRetriesGo retries true defaultRetryOn attempts attempt
                = ⟨.error (nonRetryableError res), attempt, []⟩))
    ∧ (∀ (retries : ℕ) (attempts : ℕ → Except CommandError CommandResult) (res : CommandResult),
        attempts (retries + 2) = .ok res → res.returncode ≠ 0 →
          runCmdWithRetriesGo retries true defaultRetryOn attempts (retries + 2)
            = ⟨.error (afterRetriesError res), retries + 2, []⟩)
    ∧ (∀ (retries : ℕ) (check : Bool) (pred : CommandResult → Bool)
         (attempts : ℕ → Except CommandError CommandResult),
        (run_cmd_with_retries retries check pred attempts).invocations ≤ retries + 2) := by
  refine ⟨⟨by decide, by decide⟩, ?_, ?_, ?_⟩
  · intro retries check attempts attempt res h h0 hle
    constructor
    · intro hp
      exact runGo_retry h h0 hle hp
    · intro hp
      rw [runGo_noretry h h0 hle hp, if_pos rfl]
  · intro retries attempts res h h0
    exact runGo_exhausted h h0 (by omega)
  · intro retries check pred attempts
    have := runGo_invocations_le retries check pred attempts 1
    rw [run_cmd_with_retries]
    omega

/-- C3 witness: a non-transient failure (`permanent failure` on stderr)
raises at once with a single invocation and no sleeps. -/
theorem c3_witness :
    runCmdWithRetriesGo 2 true defaultRetryOn
        (fun _ => .ok ⟨2, [], "permanent failure".toList⟩) 1
      = ⟨.error (nonRetryableError ⟨2, [], "permanent failure".toList⟩), 1, []⟩ :=
  (c3_transient_retry.2.1 2 true (fun _ => .ok ⟨2, [], "permanent failure".toList⟩) 1
    ⟨2, [], "permanent failure".toList⟩ rfl (by decide) (by omega)).2 (by decide)

/-- C2: for every non-empty commit range in which each original commit's
amended cherry-pick yields exactly one (non-empty) `Change-Id` trailer,
the accumulated list holds exactly one Change-Id per original commit, and
the returned `PreparedChange.change_ids` is the accumulated list
deduplicated preserving first-occurrence order. -/
theorem c2_one_change_id_per_commit (commits : List Str) (cidOf : Str → List Str)
    (hne : commits ≠ [])
    (h1 : ∀ c ∈ commits, ((cidOf c).filter (fun cid => decide (cid ≠ []))).length = 1) :
    (accumulatedChangeIds commits cidOf).length = commits.length
    ∧ (prepare_single_commits commits cidOf).change_ids
        = specDedup (accumulatedChangeIds commits cidOf) := by
  constructor
  · rw [accumulatedChangeIds_eq_flatten, flatten_length_of_forall_one]
    · simp
    · intro x hx
      obtain ⟨c, hc, rfl⟩ := List.mem_map.mp hx
      exact h1 c hc
  · rw [prepare_single_commits, if_neg hne, dedupFirst_eq_specDedup]

/-- C2 witness: a two-commit range with one Change-Id each, the second
duplicating the first. -/
theorem c2_witness :
    (accumulatedChangeIds ["aaa".toList, "bbb".toList]
        (fun _ => ["I1".toList])).length = (["aaa".toList, "bbb".toList] : List Str).length
    ∧ (prepare_single_commits ["aaa".toList, "bbb".toList]
        (fun _ => ["I1".toList])).change_ids
        = specDedup (accumulatedChangeIds ["aaa".toList, "bbb".toList]
            (fun _ => ["I1".toList])) :=
  c2_one_change_id_per_commit ["aaa".toList, "bbb".toList] (fun _ => ["I1".toList])
    (by decide) (by decide)

/-- C5: a REST failure for one Change-Id (primary lookup failing with no
`/r/` fallback applicable, or both the primary lookup and the one-time
`/r/` fallback failing) only removes that id's entries from the three
parallel output lists: the result on `xs ++ bad :: ys` is exactly the
concatenation of the results on `xs` and on `ys`, so the loop neither
aborts nor disturbs the other ids. -/
theorem c5_query_isolates_failures (basePath host project : Str)
    (primary fallback : Str → Except RestErr (List ChangeJson))
    (xs ys : List Str) (bad : Str)
    (hfail :
      (∃ e, primary bad = .error e ∧ ¬ (basePath = [] ∧ e.status = some 404)) ∨
      (∃ e e2, primary bad = .error e ∧ basePath = [] ∧ e.status = some 404 ∧
        fallback bad = .error e2)) :
    query_gerrit_for_results basePath host project primary fallback (xs ++ bad :: ys)
      = mergeResults
          (query_gerrit_for_results basePath host project primary fallback xs)
          (query_gerrit_for_results basePath host project primary fallback ys) := by
  rw [query_gerrit_for_results, List.foldl_append, List.foldl_cons,
    queryStep_failed _ hfail]
  exact query_foldl_merge basePath host project primary fallback ys _

/-- C5 witness: a 500-status failure in the middle of a three-id batch
drops only that id. -/
theorem c5_witness :
    query_gerrit_for_results [] "h".toList "p".toList
        (fun _ => .error ⟨some 500⟩) (fun _ => .error ⟨some 500⟩)
        (["I1".toList] ++ "bad".toList :: ["I2".toList])
      = mergeResults
          (query_gerrit_for_results [] "h".toList "p".toList
            (fun _ => .error ⟨some 500⟩) (fun _ => .error ⟨some 500⟩) ["I1".toList])
          (query_gerrit_for_results [] "h".toList "p".toList
            (fun _ => .error ⟨some 500⟩) (fun _ => .error ⟨some 500⟩) ["I2".toList]) :=
  c5_query_isolates_failures [] "h".toList "p".toList
    (fun _ => .error ⟨some 500⟩) (fun _ => .error ⟨some 500⟩)
    ["I1".toList] ["I2".toList] "bad".toList
    (Or.inl ⟨⟨some 500⟩, rfl, by decide⟩)

/-- C6: the metadata-file fixture with host `review.example.org`, port
29419 and project `foo/bar.git` parses to `GerritInfo` with the `.git`
suffix stripped; and any file with host and project lines but no port
line defaults the port to 29418. -/
theorem c6_gitreview_parsing :
    read_gitreview_text
        ["host=review.example.org".toList, "port=29419".toList,
         "project=foo/bar.git".toList]
      = .ok ⟨"review.example.org".toList, 29419, "foo/bar".toList⟩
    ∧ (∀ (lines : List Str) (h p : Str),
        lines.findSome? (keyMatch "host=".toList) = some h →
        lines.findSome? (keyMatch "project=".toList) = some p →
        lines.findSome? portMatch = none →
        ∃ gi : GerritInfo, read_gitreview_text lines = .ok gi ∧ gi.port = 29418) := by
  constructor
  · rfl
  · intro lines h p hh hp hport
    refine ⟨⟨pyStrip h, 29418, pyStrip (pyRemoveSuffix ".git".toList p)⟩, ?_, rfl⟩
    simp only [read_gitreview_text, hh, hp, hport]

/-- C6 witness: a two-line file with no port line parses with port
29418. -/
theorem c6_witness :
    ∃ gi : GerritInfo,
      read_gitreview_text ["host=h.example".toList, "project=proj".toList] = .ok gi
      ∧ gi.port = 29418 :=
  c6_gitreview_parsing.2 ["host=h.example".toList, "project=proj".toList]
    "h.example".toList "proj".toList (by decide) (by decide) (by decide)

/-- C10: every key and every value in the trailer map produced by
`_parse_trailers` is a non-empty string that is fixed by stripping (no
leading or trailing whitespace), with a non-empty value list per key;
lines with no colon, an empty key or an empty value are skipped without
error; and the values listed under each key are exactly the parsed
values with that key in source-line order. -/
theorem c10_parse_trailers_invariants :
    (∀ (text k : Str) (vs : List Str), (k, vs) ∈ parse_trailers text →
        (k ≠ [] ∧ pyStrip k = k) ∧ vs ≠ [] ∧ ∀ v ∈ vs, v ≠ [] ∧ pyStrip v = v)
    ∧ (∀ (l : Str) (ls : List Str), lineParse l = none →
        parseLines (l :: ls) = parseLines ls)
    ∧ (∀ (text k : Str),
        lookupVals k (parse_trailers text)
          = ((text.splitOn '\n').filterMap lineParse).filterMap
              (fun p => if p.1 = k then some p.2 else none)) := by
  refine ⟨?_, ?_, ?_⟩
  · intro text k vs hmem
    exact parseLines_invariant (text.splitOn '\n') [] (by simp) (k, vs) hmem
  · intro l ls hl
    rw [parseLines, parseLines, List.foldl_cons, hl]
  · intro text k
    have h := parseLines_lookup (text.splitOn '\n') [] k
    simpa [parse_trailers, parseLines] using h

/-- C10 witness: the invariants evaluated on the concrete trailer line
`Change-Id: I123`. -/
theorem c10_witness :
    (("Change-Id".toList : Str) ≠ [] ∧ pyStrip "Change-Id".toList = "Change-Id".toList)
    ∧ (["I123".toList] : List Str) ≠ []
    ∧ ∀ v ∈ (["I123".toList] : List Str), v ≠ [] ∧ pyStrip v = v :=
  c10_parse_trailers_invariants.1 "Change-Id: I123".toList "Change-Id".toList
    ["I123".toList] (by decide)

/-- C1 counterexample: the synthesized squash commit message is not just
body + sign-offs + Change-Id — on the single body line `Fix bug` with no
sign-offs and no recovered Change-Id, the code also appends the hardcoded
`Issue-ID: CIMAN-33` line, so the actual message differs from the message
the claim describes. -/
theorem c1_counterexample :
    (prepare_squashed_commit "Fix bug".toList [] "A <a@x>".toList).message
      ≠ claimedSquashMessage
          (pyStrip (joinNL (squashParts "Fix bug".toList).msgLines))
          (pySortedSet (squashParts "Fix bug".toList).signoffs)
          [] := by
  have hsig : (squashParts "Fix bug".toList).signoffs = [] := by decide
  have hso : pySortedSet (squashParts "Fix bug".toList).signoffs = [] := by
    rw [pySortedSet, hsig]
    simp
  have hlhs : (prepare_squashed_commit "Fix bug".toList [] "A <a@x>".toList).message
      = squashCommitMessage "Fix bug".toList [] := rfl
  rw [hlhs]
  simp only [squashCommitMessage, claimedSquashMessage, hso]
  decide

/-- C1 (amended): the squash strategy's synthesized commit message equals
exactly the filtered message body, then a blank line and the hardcoded
`Issue-ID: CIMAN-33` line, then a blank line and the deduplicated,
lexicographically sorted Signed-off-by lines (when any), then a blank
line and the reused Change-Id line (when one was recovered) — and
nothing else; the sign-off block is genuinely sorted, duplicate-free and
holds exactly the extracted Signed-off-by lines; and the commit is
created with this message, the original head commit's author, and
sign-off. -/
theorem c1_squash_message_structure (body reuseCid headAuthor : Str) :
    (prepare_squashed_commit body reuseCid headAuthor).message
      = amendedSquashMessage (pyStrip (joinNL (squashParts body).msgLines))
          (pySortedSet (squashParts body).signoffs) reuseCid
    ∧ (pySortedSet (squashParts body).signoffs).Pairwise (fun a b => strLe a b = true)
    ∧ (pySortedSet (squashParts body).signoffs).Nodup
    ∧ (∀ x, x ∈ pySortedSet (squashParts body).signoffs ↔ x ∈ (squashParts body).signoffs)
    ∧ (prepare_squashed_commit body reuseCid headAuthor).author = headAuthor
    ∧ (prepare_squashed_commit body reuseCid headAuthor).signoff = true :=
  ⟨rfl, pySortedSet_sorted _, pySortedSet_nodup _,
   fun x => pySortedSet_mem _ x, rfl, rfl⟩

/-- C4: when the `dry_run` input is set, `execute` performs no push-tool
invocation and no step that moves the working tree's HEAD, and whenever
it returns (rather than raises) the returned `SubmissionResult` has
empty `change_urls`, `change_numbers` and `commit_shas`. -/
theorem c4_dry_run_no_push (inputs : Inputs) (gh : GitHubContext) (env : ExecEnv)
    (hdry : inputs.dry_run = true) :
    (∀ a ∈ (execute inputs gh env).1,
        isPushToolInvocation a = false ∧ mutatesHead a = false)
    ∧ (∀ r, (execute inputs gh env).2 = .ok r → r = ⟨[], [], []⟩) := by
  cases hpr : gh.pr_number with
  | none =>
    constructor
    · intro a ha
      simp [execute, hpr] at ha
    · intro r hr
      simp [execute, hpr] at hr
  | some n =>
    cases hgr : env.readGitreview with
    | error e =>
      constructor
      · intro a ha
        simp only [execute, hpr, hgr] at ha
        fin_cases ha <;> exact ⟨rfl, rfl⟩
      · intro r hr
        simp [execute, hpr, hgr] at hr
    | ok gitreview =>
      cases hdn : env.deriveRepoNames gitreview with
      | error e =>
        constructor
        · intro a ha
          simp only [execute, hpr, hgr, hdn] at ha
          fin_cases ha <;> exact ⟨rfl, rfl⟩
        · intro r hr
          simp [execute, hpr, hgr, hdn] at hr
      | ok names =>
        cases hri : env.resolveGerritInfo gitreview names with
        | error e =>
          constructor
          · intro a ha
            simp only [execute, hpr, hgr, hdn, hri] at ha
            fin_cases ha <;> exact ⟨rfl, rfl⟩
          · intro r hr
            simp [execute, hpr, hgr, hdn, hri] at hr
        | ok gerrit =>
          cases hpf : env.dryRunPreflight gerrit with
          | error e =>
            constructor
            · intro a ha
              simp only [execute, hpr, hgr, hdn, hri, hdry, if_pos, hpf] at ha
              fin_cases ha <;> exact ⟨rfl, rfl⟩
            · intro r hr
              simp [execute, hpr, hgr, hdn, hri, hdry, hpf] at hr
          | ok u =>
            constructor
            · intro a ha
              simp only [execute, hpr, hgr, hdn, hri, hdry, if_pos, hpf] at ha
              fin_cases ha <;> exact ⟨rfl, rfl⟩
            · intro r hr
              simp only [execute, hpr, hgr, hdn, hri, hdry, if_pos, hpf] at hr
              injection hr with h2
              exact h2.symm

/-- An environment in which every pipeline step succeeds trivially; used
only to instantiate the dry-run theorem. -/
def sampleExecEnv : ExecEnv where
  readGitreview := .ok none
  deriveRepoNames := fun _ => .ok ⟨[], []⟩
  resolveGerritInfo := fun _ _ => .ok ⟨[], 29418, []⟩
  dryRunPreflight := fun _ => .ok ()
  configureGit := fun _ => .ok ()
  prepareSingle := .ok ⟨[], []⟩
  prepareSquash := .ok ⟨[], []⟩
  applyPrTitleBody := .ok ()
  pushToGerrit := .ok ()
  queryResults := fun _ => .ok ⟨[], [], []⟩
  backrefComment := .ok ()

/-- C4 witness: the dry-run theorem evaluated in a concrete succeeding
environment for PR 7. -/
theorem c4_witness :
    (∀ a ∈ (execute ⟨true, false, false⟩ ⟨some 7⟩ sampleExecEnv).1,
        isPushToolInvocation a = false ∧ mutatesHead a = false)
    ∧ (∀ r, (execute ⟨true, false, false⟩ ⟨some 7⟩ sampleExecEnv).2 = .ok r →
        r = ⟨[], [], []⟩) :=
  c4_dry_run_no_push ⟨true, false, false⟩ ⟨some 7⟩ sampleExecEnv rfl

end G2G
